import Mathlib

/-!
Verification development for the lemon-tree repository (rust).

The repository's `src/` tree holds the public library façade (`src/lib.rs`,
the `LemonTree` / `LemonTreeNode` traits and module documentation) and two
integration tests (`tests/calc_1.rs`, `tests/tree_1.rs`).  The derive-macro
crate that implements the rule-text parser, the symbol table, the
action/binding resolver and the glue emitter, as well as the external Lemon
LALR engine that executes the generated parser, are not part of `src/`.
Those parts are therefore modelled here from the specification, and the
grammars, semantic actions and expected behaviours are taken from the two
test files, which are part of `src/`.

Numeric token payloads are `f64` in the source (`token_type="f64"`); they are
modelled as exact rationals `ℚ`.  Every concrete value appearing in the
claims (2, 3, 6, 8, …) and every operation applied to them (addition,
multiplication) is exact in IEEE-754 double precision, so the rational model
agrees with the source on all inputs the theorems mention.
-/

namespace LemonTree

/-- The token identity type generated for both test grammars: one variant per
distinct terminal name appearing in the `#[lem(...)]` / `#[lem_fn(...)]`
rules of `tests/calc_1.rs` and `tests/tree_1.rs` (the two files declare the
same terminal set). -/
inductive Token where
  | NUM
  | PLUS
  | MINUS
  | TIMES
  | DIVIDE
  | PAR_OPEN
  | PAR_CLOSE
  | SEMICOLON
deriving DecidableEq, Repr

/-- Associativity of a precedence group, spec §3 `GrammarOptions`:
`{Left, Right, None}` (from `left=`, `right=`, `nonassoc=` directives). -/
inductive Assoc where
  | left
  | right
  | nonassoc
deriving DecidableEq, Repr

/-- Modelled from the spec: `GrammarOptions` precedence groups — an ordered
list of groups, each an associativity and the terminals of that tier; the
order of the `left=`/`right=`/`nonassoc=` directive instances defines the
relative precedence, first group lowest (spec §3, §6). -/
abbrev PrecGroups := List (Assoc × List Token)

/-- Modelled from the spec: the precedence tier of a terminal, derived from
the ordered group list — the index of the first group containing the
terminal (so earlier directives give lower tiers), with that group's
associativity.  `none` when the terminal belongs to no group. -/
def precOfAux : PrecGroups → Token → Nat → Option (Nat × Assoc)
  | [], _, _ => none
  | (a, ts) :: gs, t, i => if t ∈ ts then some (i, a) else precOfAux gs t (i + 1)

def precOf (groups : PrecGroups) (t : Token) : Option (Nat × Assoc) :=
  precOfAux groups t 0

/-- The runtime parse errors of the generated parser (spec §7): a token no
rule can accept is `UnexpectedToken`; `end()` on an incomplete sentence is
`UnexpectedEof`. -/
inductive ParseError where
  | UnexpectedToken
  | UnexpectedEof
deriving DecidableEq, Repr

/-- The semantic actions of the expression grammar shared by
`tests/calc_1.rs` and `tests/tree_1.rs`, one field per annotated rule that
builds an `Expr` value (`expr_1` … `expr_8` in calc_1, the `Expr` enum
variants and `expr_from_par` in tree_1).  `V` is the host type the
nonterminal `Expr` materializes as. -/
structure Actions (V : Type) where
  num : ℚ → V
  unaryMinus : V → V
  unaryPlus : V → V
  plus : V → V → V
  minus : V → V → V
  times : V → V → V
  divide : V → V → V
  paren : V → V

/-- One entry of the runtime parser's operator stack: a pending unary rule,
a pending binary rule, or an open parenthesis. -/
inductive OpItem where
  | unaryMinus
  | unaryPlus
  | binPlus
  | binMinus
  | binTimes
  | binDivide
  | paren
deriving DecidableEq, Repr

/-- The terminal whose precedence governs an operator-stack entry: for the
binary rules the operator terminal itself, for the unary rules the leftmost
terminal of the rule (`MINUS Expr` / `PLUS Expr`), which is how Lemon
assigns rule precedence. -/
def termOf : OpItem → Token
  | .unaryMinus => .MINUS
  | .unaryPlus => .PLUS
  | .binPlus => .PLUS
  | .binMinus => .MINUS
  | .binTimes => .TIMES
  | .binDivide => .DIVIDE
  | .paren => .PAR_OPEN

/-- Apply one pending operator rule to the value stack (head = most recent
value), invoking the grammar's semantic action.  `none` when the entry is an
open parenthesis or the stack is too short (unreachable from well-formed
parses, but kept total). -/
def applyOp (acts : Actions V) : OpItem → List V → Option (List V)
  | .unaryMinus, v :: vs => some (acts.unaryMinus v :: vs)
  | .unaryPlus, v :: vs => some (acts.unaryPlus v :: vs)
  | .binPlus, b :: a :: vs => some (acts.plus a b :: vs)
  | .binMinus, b :: a :: vs => some (acts.minus a b :: vs)
  | .binTimes, b :: a :: vs => some (acts.times a b :: vs)
  | .binDivide, b :: a :: vs => some (acts.divide a b :: vs)
  | _, _ => none

/-- Modelled from the spec: the shift/reduce decision of the generated LALR
parser when a binary operator terminal of tier `pt` / associativity `a`
arrives and the pending rule `op` sits on top of the stack (spec §4.4
precedence tie-breaks, §3 precedence groups).  A pending rule of strictly
higher tier is reduced; equal tier reduces under left associativity, shifts
under right, and is a parse error under nonassoc; lower tier, or a pending
rule with no assigned precedence, shifts (the engine's default). -/
def shouldReduce (groups : PrecGroups) (pt : Nat) (a : Assoc) (op : OpItem) :
    Except ParseError Bool :=
  match precOf groups (termOf op) with
  | none => .ok false
  | some (pt', _) =>
    if pt < pt' then .ok true
    else if pt' < pt then .ok false
    else
      match a with
      | .left => .ok true
      | .right => .ok false
      | .nonassoc => .error .UnexpectedToken

/-- Reduce the pending rules an arriving binary operator terminal of tier
`pt` / associativity `a` must reduce before it is shifted; an open
parenthesis always stops the reductions. -/
def popPrec (acts : Actions V) (groups : PrecGroups) (pt : Nat) (a : Assoc) :
    List OpItem → List V → Except ParseError (List OpItem × List V)
  | [], vals => .ok ([], vals)
  | op :: ops, vals =>
    if op = .paren then .ok (op :: ops, vals)
    else
      match shouldReduce groups pt a op with
      | .ok true =>
        match applyOp acts op vals with
        | some vals' => popPrec acts groups pt a ops vals'
        | none => .error .UnexpectedToken
      | .ok false => .ok (op :: ops, vals)
      | .error e => .error e

/-- Reduce pending operator rules down to the matching open parenthesis
(for the `PAR_OPEN Expr PAR_CLOSE` rule); `none` when no parenthesis is
open. -/
def popToParen (acts : Actions V) : List OpItem → List V → Option (List OpItem × List V)
  | [], _ => none
  | op :: ops, vals =>
    if op = .paren then some (ops, vals)
    else
      match applyOp acts op vals with
      | some vals' => popToParen acts ops vals'
      | none => none

/-- Reduce every pending operator rule, yielding the single completed `Expr`
value; `none` when a parenthesis is still open or no complete operand
exists. -/
def reduceAll (acts : Actions V) : List OpItem → List V → Option V
  | [], vals =>
    match vals with
    | [v] => some v
    | _ => none
  | op :: ops, vals =>
    match applyOp acts op vals with
    | some vals' => reduceAll acts ops vals'
    | none => none

/-- Modelled from the spec: the state of the generated runtime parser
(spec §5: exclusive, sequential ownership of accumulated partially-built
subtrees during shift/reduce).  `acc` is the `Exprs` list built by the
`exprs_1` / `exprs_2` rules (`vec![item]`, then `items.push(item)`);
`vals`/`ops` are the shift-reduce stacks of the current expression; and
`expectOperand` records whether the next token must start an operand. -/
structure PState (V : Type) where
  acc : List V
  vals : List V
  ops : List OpItem
  expectOperand : Bool
deriving DecidableEq, Repr

def initState : PState V := ⟨[], [], [], true⟩

/-- Shift a binary operator terminal: resolve shift/reduce ties by
precedence, then push the pending rule.  A terminal with no precedence
tier shifts without reducing (the engine's default when the conflict is
unresolved). -/
def shiftBinary (acts : Actions V) (groups : PrecGroups) (op : OpItem) (s : PState V) :
    Except ParseError (PState V) :=
  match precOf groups (termOf op) with
  | some (pt, a) =>
    match popPrec acts groups pt a s.ops s.vals with
    | .ok (ops', vals') => .ok ⟨s.acc, vals', op :: ops', true⟩
    | .error e => .error e
  | none => .ok ⟨s.acc, s.vals, op :: s.ops, true⟩

/-- Modelled from the spec: `Parser::add_token(token, payload)` of the
generated parser (spec §6), specialised to the expression grammar of the two
test files.  Feeds one token, triggering zero or more reductions; a token no
rule can accept in the current state is `ParseError::UnexpectedToken`
(spec §7). -/
def addToken (acts : Actions V) (groups : PrecGroups) (s : PState V) (t : Token) (p : ℚ) :
    Except ParseError (PState V) :=
  match s.expectOperand, t with
  | true, .NUM => .ok ⟨s.acc, acts.num p :: s.vals, s.ops, false⟩
  | true, .MINUS => .ok ⟨s.acc, s.vals, .unaryMinus :: s.ops, true⟩
  | true, .PLUS => .ok ⟨s.acc, s.vals, .unaryPlus :: s.ops, true⟩
  | true, .PAR_OPEN => .ok ⟨s.acc, s.vals, .paren :: s.ops, true⟩
  | true, _ => .error .UnexpectedToken
  | false, .PLUS => shiftBinary acts groups .binPlus s
  | false, .MINUS => shiftBinary acts groups .binMinus s
  | false, .TIMES => shiftBinary acts groups .binTimes s
  | false, .DIVIDE => shiftBinary acts groups .binDivide s
  | false, .PAR_CLOSE =>
    match popToParen acts s.ops s.vals with
    | some (ops', v :: vals') => .ok ⟨s.acc, acts.paren v :: vals', ops', false⟩
    | _ => .error .UnexpectedToken
  | false, .SEMICOLON =>
    match reduceAll acts s.ops s.vals with
    | some v => .ok ⟨s.acc ++ [v], [], [], true⟩
    | none => .error .UnexpectedToken
  | false, _ => .error .UnexpectedToken

/-- Modelled from the spec: `Parser::end()` (spec §6) — forces the final
reductions and returns the start symbol's materialized `Exprs` list, or
`ParseError::UnexpectedEof` when the accumulated input is not a complete
sentence (spec §7).  The start rule `"Exprs(exprs) [SEMICOLON]"` makes a
trailing semicolon optional: a state that has just consumed a semicolon
after at least one expression is also a complete sentence. -/
def pend (acts : Actions V) (s : PState V) : Except ParseError (List V) :=
  if s.expectOperand then
    match s.ops, s.vals, s.acc with
    | [], [], _ :: _ => .ok s.acc
    | _, _, _ => .error .UnexpectedEof
  else
    match reduceAll acts s.ops s.vals with
    | some v => .ok (s.acc ++ [v])
    | none => .error .UnexpectedEof

/-- `end()` including its effect on the parser object: on success the parser
is left in its initial state, ready for a new parsing session (the tests
reuse one parser across several `parse` calls). -/
def endToken (acts : Actions V) (s : PState V) : Except ParseError (List V × PState V) :=
  match pend acts s with
  | .ok v => .ok (v, initState)
  | .error e => .error e

/-- Feed a sequence of `(token, payload)` pairs with `addToken`, stopping at
the first error. -/
def runTokens (acts : Actions V) (groups : PrecGroups) :
    PState V → List (Token × ℚ) → Except ParseError (PState V)
  | s, [] => .ok s
  | s, (t, p) :: ts =>
    match addToken acts groups s t p with
    | .ok s' => runTokens acts groups s' ts
    | .error e => .error e

/-- One full parsing session from a given parser state: feed all tokens,
then call `end()` for the result. -/
def sessionResult (acts : Actions V) (groups : PrecGroups) (s : PState V)
    (ts : List (Token × ℚ)) : Except ParseError (List V) :=
  match runTokens acts groups s ts with
  | .ok s' => pend acts s'
  | .error e => .error e

/-- Parse one complete sentence on a fresh parser, as the tests'
`parse(&mut parser, input)` does (returning `end().unwrap().exprs`). -/
def parseAll (acts : Actions V) (groups : PrecGroups) (ts : List (Token × ℚ)) :
    Except ParseError (List V) :=
  sessionResult acts groups initState ts

end LemonTree

namespace Calc1

open LemonTree

/-- `tests/calc_1.rs`: `type Expr = f64`, modelled as `ℚ`. -/
abbrev Expr := ℚ

/-- The semantic actions of `tests/calc_1.rs`, one per `#[lem_fn(...)]`
function: `expr_1 "NUM(value)" = value`, `expr_2 "MINUS Expr(a)" = -a`,
`expr_3 "PLUS Expr(a)" = a`, `expr_4 "Expr(a) PLUS Expr(b)" = a + b`,
`expr_5 ... = a - b`, `expr_6 ... = a * b`, `expr_7 ... = a / b`,
`expr_8 "PAR_OPEN Expr(0) PAR_CLOSE" = a`. -/
def actions : Actions Expr :=
  { num := fun v => v
    unaryMinus := fun a => -a
    unaryPlus := fun a => a
    plus := fun a b => a + b
    minus := fun a b => a - b
    times := fun a b => a * b
    divide := fun a b => a / b
    paren := fun a => a }

/-- The precedence directives of `tests/calc_1.rs`:
`#[lem_opt(..., left="PLUS MINUS", left="DIVIDE TIMES", ...)]` — two left
groups, in this order, so `PLUS`/`MINUS` form the lower tier. -/
def groups : PrecGroups :=
  [(Assoc.left, [Token.PLUS, Token.MINUS]),
   (Assoc.left, [Token.DIVIDE, Token.TIMES])]

end Calc1

namespace Tree1

open LemonTree

/-- `tests/tree_1.rs`: the `Expr` enum with one `#[lem(...)]` rule per
variant.  `Box<Expr>` arguments are modelled as `Expr` itself (boxing is
representation only). -/
inductive Expr where
  | Num (v : ℚ)
  | UnaryMinus (a : Expr)
  | UnaryPlus (a : Expr)
  | Plus (a b : Expr)
  | Minus (a b : Expr)
  | Times (a b : Expr)
  | Divide (a b : Expr)
deriving DecidableEq, Repr

/-- The semantic actions of `tests/tree_1.rs`: each enum variant's rule
constructs that variant with operands in rule order (`"Expr(0) PLUS
Expr(1)"` → `Expr::Plus(arg0.into(), arg1.into())`), and `expr_from_par`
(`"PAR_OPEN Expr(0) PAR_CLOSE"`) returns its argument unchanged. -/
def actions : Actions Expr :=
  { num := Expr.Num
    unaryMinus := Expr.UnaryMinus
    unaryPlus := Expr.UnaryPlus
    plus := Expr.Plus
    minus := Expr.Minus
    times := Expr.Times
    divide := Expr.Divide
    paren := fun a => a }

/-- The precedence directives of `tests/tree_1.rs`:
`#[lem_opt(..., left="PLUS MINUS", left="DIVIDE TIMES")]`. -/
def groups : PrecGroups := Calc1.groups

end Tree1

namespace LemonTree

/-- Binding attached to one rule-text symbol reference (spec §4.1): either
an identifier, or a 0-based positional index. -/
inductive Binding where
  | name (s : String)
  | pos (i : Nat)
deriving DecidableEq, Repr

/-- The action-resolution errors of the grammar compiler (spec §7.
`ArityMismatch`, `UnknownBinding`, `MissingDefault`, `NoConversion` are
build-time diagnostics, surfaced while the grammar is compiled, never by
the generated parser at runtime). -/
inductive ResolveError where
  | ArityMismatch
  | UnknownBinding
  | MissingDefault
  | NoConversion
deriving DecidableEq, Repr

/-- Modelled from the spec: matching one rule binding against a function's
parameter list on the `lem_fn` FunctionCall path.  A named binding matches
the identically-named parameter (spec §4.4); a name matching no parameter is
`UnknownBinding`.  A numeric binding is matched against positional parameter
order (spec §4.1, and as exercised by `expr_8` in `tests/calc_1.rs`, whose
rule `"PAR_OPEN Expr(0) PAR_CLOSE"` binds position `0` to the parameter
`a`); an out-of-range index is `ArityMismatch`. -/
def matchBinding (params : List String) : Binding → Except ResolveError String
  | .name s => if s ∈ params then .ok s else .error .UnknownBinding
  | .pos i =>
    match params.get? i with
    | some p => .ok p
    | none => .error .ArityMismatch

/-- Match every binding of a rule, left to right, producing the
parameter-to-binding assignment; the first mismatch aborts with its
error. -/
def matchBindings (params : List String) :
    List Binding → Except ResolveError (List (String × Binding))
  | [] => .ok []
  | b :: bs =>
    match matchBinding params b with
    | .ok p =>
      match matchBindings params bs with
      | .ok rest => .ok ((p, b) :: rest)
      | .error e => .error e
    | .error e => .error e

/-- Modelled from the spec: resolving a FunctionCall action (spec §4.4) —
the rule's bindings are matched against the function's parameters, and a
parameter-count mismatch is `ArityMismatch`. -/
def resolveFunctionCall (params : List String) (bnds : List Binding) :
    Except ResolveError (List (String × Binding)) :=
  if bnds.length = params.length then matchBindings params bnds
  else .error .ArityMismatch

/-- The initializer emitted for one field of a StructLiteral action: either
the value of the identically-named binding (`field: value.into()`), or the
field type's default value (`Default::default()`). -/
inductive FieldInit where
  | fromBinding (b : String)
  | defaultValue (ty : String)
deriving DecidableEq, Repr

/-- Modelled from the spec: resolving a StructLiteral action (spec §4.4 and
the lib.rs module doc): aliases given in parentheses are assigned to the
identically-named struct fields, and every remaining field of the target
struct is set to its type's default value.  Fields are listed with their
declared types. -/
def resolveStructLiteral (fields : List (String × String)) (bnds : List String) :
    List (String × FieldInit) :=
  fields.map fun ft =>
    (ft.1, if ft.1 ∈ bnds then FieldInit.fromBinding ft.1 else FieldInit.defaultValue ft.2)

/-- The defaulted-field set of a resolved StructLiteral action: the fields
whose initializer is the type default. -/
def defaultedFields (fields : List (String × String)) (bnds : List String) : List String :=
  (resolveStructLiteral fields bnds).filterMap fun fi =>
    match fi.2 with
    | .defaultValue _ => some fi.1
    | .fromBinding _ => none

/-- The value expression emitted for one bound value inside an action: the
bound value used directly when the declared types agree, or wrapped in the
implicit conversion call (`value.into()`) when they differ. -/
inductive ValueExpr where
  | direct (b : String)
  | converted (b : String)
deriving DecidableEq, Repr

/-- Modelled from the spec: the conversion-contract lookup of the
Action/Binding Resolver (spec §4.4, §9).  When a bound value's declared
type differs from the target field/parameter/variant-argument type, the
resolver inserts an implicit conversion call, which must be backed by a
conversion contract registered for that (source, target) type pair; a
missing contract is the build-time failure `NoConversion`.  The resolver
runs while the grammar is compiled, so the failure can never occur at
runtime. -/
def resolveBoundValue (contracts : List (String × String)) (b srcTy tgtTy : String) :
    Except ResolveError ValueExpr :=
  if srcTy = tgtTy then .ok (.direct b)
  else if (srcTy, tgtTy) ∈ contracts then .ok (.converted b)
  else .error .NoConversion

end LemonTree

namespace LemonTree

/-! ### Helper lemmas -/

theorem runTokens_append (acts : Actions V) (groups : PrecGroups) (ts us : List (Token × ℚ)) :
    ∀ s : PState V, runTokens acts groups s (ts ++ us) =
      match runTokens acts groups s ts with
      | .ok s' => runTokens acts groups s' us
      | .error e => .error e := by
  induction ts with
  | nil => intro s; simp [runTokens]
  | cons tp ts ih =>
    intro s
    obtain ⟨t, p⟩ := tp
    simp only [List.cons_append, runTokens]
    cases addToken acts groups s t p with
    | ok s' => exact ih s'
    | error e => rfl

theorem shouldReduce_error_eq (groups : PrecGroups) (pt : Nat) (a : Assoc) (op : OpItem)
    (e : ParseError) (h : shouldReduce groups pt a op = .error e) :
    e = .UnexpectedToken := by
  unfold shouldReduce at h
  split at h
  · simp at h
  · split_ifs at h
    cases a <;> simp_all

theorem popPrec_error_eq (acts : Actions V) (groups : PrecGroups) (pt : Nat) (a : Assoc) :
    ∀ (ops : List OpItem) (vals : List V) (e : ParseError),
      popPrec acts groups pt a ops vals = .error e → e = .UnexpectedToken := by
  intro ops
  induction ops with
  | nil => intro vals e h; simp [popPrec] at h
  | cons op ops ih =>
    intro vals e h
    rw [popPrec] at h
    split_ifs at h
    rcases hsr : shouldReduce groups pt a op with e' | b
    · rw [hsr] at h
      simp at h
      exact h ▸ shouldReduce_error_eq groups pt a op e' hsr
    · rw [hsr] at h
      cases b with
      | true =>
        rcases hap : applyOp acts op vals with _ | vals' <;> rw [hap] at h
        · simpa using h.symm
        · exact ih vals' e h
      | false => simp at h

end LemonTree

namespace LemonTree

theorem shiftBinary_error_eq (acts : Actions V) (groups : PrecGroups) (op : OpItem)
    (s : PState V) (e : ParseError) (h : shiftBinary acts groups op s = .error e) :
    e = .UnexpectedToken := by
  unfold shiftBinary at h
  split at h
  · rcases hp : popPrec acts groups _ _ s.ops s.vals with e' | ⟨ops', vals'⟩ <;> rw [hp] at h
    · simp at h
      exact h ▸ popPrec_error_eq acts groups _ _ s.ops s.vals e' hp
    · exact Except.noConfusion h
  · exact Except.noConfusion h

theorem addToken_error_eq (acts : Actions V) (groups : PrecGroups) (s : PState V)
    (t : Token) (p : ℚ) (e : ParseError) (h : addToken acts groups s t p = .error e) :
    e = .UnexpectedToken := by
  obtain ⟨acc, vals, ops, eo⟩ := s
  cases eo <;> cases t <;> simp only [addToken] at h
  all_goals first
    | exact Except.noConfusion h
    | exact (Except.error.inj h).symm
    | exact shiftBinary_error_eq acts groups _ _ e h
    | (split at h <;> first
        | exact Except.noConfusion h
        | exact (Except.error.inj h).symm)

theorem pend_error_eq (acts : Actions V) (s : PState V) (e : ParseError)
    (h : pend acts s = .error e) : e = .UnexpectedEof := by
  unfold pend at h
  split_ifs at h <;> split at h <;>
    first
      | exact Except.noConfusion h
      | exact (Except.error.inj h).symm

end LemonTree

namespace LemonTree

/-! ### Concrete end-to-end runs -/

theorem calc_run_2_plus_2_times_2 :
    parseAll Calc1.actions Calc1.groups
      [(.NUM, 2), (.PLUS, 0), (.NUM, 2), (.TIMES, 0), (.NUM, 2)] = .ok [6] := by
  simp +decide [parseAll, sessionResult, runTokens, addToken, shiftBinary, shouldReduce,
    precOf, precOfAux, popPrec, applyOp, pend, reduceAll, initState, Calc1.actions,
    Calc1.groups, termOf]
  norm_num

/-- C1: the spec asserts that for the arithmetic grammar with
left-associative PLUS at lower precedence than left-associative TIMES, the
token sequence NUM 2, PLUS, NUM 2, TIMES, NUM 2 followed by `end()` yields
8.0.  This is false on the code: the test at `tests/calc_1.rs:58` asserts
the value 6.0 for `"2 + 2 * 2"` (TIMES binds tighter, so the sentence
parses as `2 + (2 * 2)`), and the modelled parser agrees. -/
theorem calc_2_plus_2_times_2_is_not_8 :
    parseAll Calc1.actions Calc1.groups
      [(.NUM, 2), (.PLUS, 0), (.NUM, 2), (.TIMES, 0), (.NUM, 2)] ≠ .ok [8] := by
  rw [calc_run_2_plus_2_times_2]
  intro hcontra
  have h := Except.ok.inj hcontra
  simp at h

/-- C1 (amended): for the arithmetic grammar with left-associative PLUS at
lower precedence than left-associative TIMES, feeding NUM 2, PLUS, NUM 2,
TIMES, NUM 2 (the sentence `"2 + 2 * 2"`) and then calling `end()` yields
the value 6.0 — the multiplication binds tighter, per `tests/calc_1.rs:58`. -/
theorem calc_2_plus_2_times_2_yields_6 :
    parseAll Calc1.actions Calc1.groups
      [(.NUM, 2), (.PLUS, 0), (.NUM, 2), (.TIMES, 0), (.NUM, 2)] = .ok [6] :=
  calc_run_2_plus_2_times_2

/-- C3: the order of the two `left=` precedence directives of
`tests/calc_1.rs` (`left="PLUS MINUS"` then `left="DIVIDE TIMES"`) defines
the precedence tiers with the first group lowest, so PLUS/MINUS sit in
tier 0 and DIVIDE/TIMES in tier 1 and TIMES/DIVIDE bind tighter; parsing
`"2 * 2 + 2"` therefore yields `(2 * 2) + 2 = 6.0`. -/
theorem precedence_tiers_from_directive_order :
    precOf Calc1.groups .PLUS = some (0, .left) ∧
    precOf Calc1.groups .MINUS = some (0, .left) ∧
    precOf Calc1.groups .TIMES = some (1, .left) ∧
    precOf Calc1.groups .DIVIDE = some (1, .left) ∧
    parseAll Calc1.actions Calc1.groups
      [(.NUM, 2), (.TIMES, 0), (.NUM, 2), (.PLUS, 0), (.NUM, 2)] = .ok [6] := by
  refine ⟨by decide, by decide, by decide, by decide, ?_⟩
  simp +decide [parseAll, sessionResult, runTokens, addToken, shiftBinary, shouldReduce,
    precOf, precOfAux, popPrec, applyOp, pend, reduceAll, initState, Calc1.actions,
    Calc1.groups, termOf]
  norm_num

/-- C9: feeding the token sequence of `"(2+2)*2"` (PAR_OPEN, NUM 2, PLUS,
NUM 2, PAR_CLOSE, TIMES, NUM 2) followed by `end()` yields 8.0: the
parenthesis-wrapped sub-expression collapses to its inner value (rule
`expr_8`, `"PAR_OPEN Expr(0) PAR_CLOSE"`) before the multiplication
applies, per `tests/calc_1.rs:58`. -/
theorem calc_parenthesized_expression :
    parseAll Calc1.actions Calc1.groups
      [(.PAR_OPEN, 0), (.NUM, 2), (.PLUS, 0), (.NUM, 2), (.PAR_CLOSE, 0),
       (.TIMES, 0), (.NUM, 2)] = .ok [8] := by
  simp +decide [parseAll, sessionResult, runTokens, addToken, shiftBinary, shouldReduce,
    precOf, precOfAux, popPrec, popToParen, applyOp, pend, reduceAll, initState,
    Calc1.actions, Calc1.groups, termOf]
  norm_num

/-- C7: for the enum-variant rule `"Expr(0) PLUS Expr(1)"` of
`tests/tree_1.rs`, the constructed value is the variant applied to the
operands in left-to-right sentence order: parsing NUM 2, PLUS, NUM 3
builds `Plus(Num(2.0), Num(3.0))` — binding 0 receives the first `Expr`
occurrence (the left operand 2) and binding 1 the second (the right
operand 3). -/
theorem enum_variant_positional_order :
    parseAll Tree1.actions Tree1.groups [(.NUM, 2), (.PLUS, 0), (.NUM, 3)] =
      .ok [Tree1.Expr.Plus (.Num 2) (.Num 3)] := by
  simp +decide [parseAll, sessionResult, runTokens, addToken, shiftBinary, shouldReduce,
    precOf, precOfAux, popPrec, applyOp, pend, reduceAll, initState, Tree1.actions,
    Calc1.groups, Tree1.groups, termOf]

end LemonTree

namespace LemonTree

/-- C6: for a grammar whose start rule ends with an optional trailing
terminal in bracket notation (`"Exprs(exprs) [SEMICOLON]"` in both test
files), every sentence accepted without the trailing SEMICOLON is also
accepted with it appended, and both `end()` calls produce equal results.
The hypothesis `s.expectOperand = false` states that the sentence ends in a
completed expression, i.e. it derives `Exprs` and does not already carry
the optional trailing terminal. -/
theorem optional_trailing_terminal (acts : Actions V) (groups : PrecGroups)
    (ts : List (Token × ℚ)) (s : PState V) (v : List V)
    (h1 : runTokens acts groups initState ts = .ok s)
    (h2 : s.expectOperand = false)
    (h3 : pend acts s = .ok v) :
    parseAll acts groups ts = .ok v ∧
    parseAll acts groups (ts ++ [(.SEMICOLON, 0)]) = .ok v := by
  have hred : ∃ w, reduceAll acts s.ops s.vals = some w ∧ v = s.acc ++ [w] := by
    unfold pend at h3
    rw [h2] at h3
    simp only [Bool.false_eq_true, if_false] at h3
    rcases hr : reduceAll acts s.ops s.vals with _ | w <;> rw [hr] at h3
    · exact Except.noConfusion h3
    · exact ⟨w, rfl, (Except.ok.inj h3).symm⟩
  obtain ⟨w, hw, hv⟩ := hred
  constructor
  · unfold parseAll sessionResult
    rw [h1]
    exact h3
  · unfold parseAll sessionResult
    rw [runTokens_append, h1]
    have hadd : addToken acts groups s .SEMICOLON 0 = .ok ⟨s.acc ++ [w], [], [], true⟩ := by
      obtain ⟨acc, vals, ops, eo⟩ := s
      simp only at h2 hw
      subst h2
      simp only [addToken, hw]
    simp only [runTokens, hadd]
    simp only [pend, if_true]
    cases hacc : s.acc ++ [w] with
    | nil => exact absurd hacc (by simp)
    | cons x xs => simp [hv, hacc]

end LemonTree

namespace LemonTree

/-- C6 (witness): the concrete start sentence `"2"` of the calc grammar is
accepted both without and with the trailing SEMICOLON, and both runs yield
`[2.0]`. -/
theorem optional_trailing_terminal_witness :
    parseAll Calc1.actions Calc1.groups [(.NUM, 2)] = .ok [2] ∧
    parseAll Calc1.actions Calc1.groups [(.NUM, 2), (.SEMICOLON, 0)] = .ok [2] :=
  optional_trailing_terminal Calc1.actions Calc1.groups [(.NUM, 2)]
    ⟨[], [2], [], false⟩ [2] rfl rfl rfl

/-- C10: after a successful `end()` the same parser object is reusable for
a new parsing session: `end()` leaves the parser in its initial state, so
the result of a following session depends only on the tokens added after
the previous `end()`, independent of earlier sessions (as exercised by the
repeated `parse(&mut parser, ...)` calls of `tests/calc_1.rs:54-65`). -/
theorem parser_reusable_after_end (acts : Actions V) (groups : PrecGroups)
    (ts1 ts2 : List (Token × ℚ)) (s s1 : PState V) (v1 : List V)
    (_h1 : runTokens acts groups initState ts1 = .ok s)
    (h2 : endToken acts s = .ok (v1, s1)) :
    s1 = initState ∧
    sessionResult acts groups s1 ts2 = parseAll acts groups ts2 := by
  have hs1 : s1 = initState := by
    unfold endToken at h2
    rcases hp : pend acts s with e | v <;> rw [hp] at h2
    · exact Except.noConfusion h2
    · exact (congrArg Prod.snd (Except.ok.inj h2)).symm
  exact ⟨hs1, by rw [hs1]; rfl⟩

/-- C10 (witness): one session parsing `"2"` and ending, then a second
session parsing `"3"` — the second session behaves exactly as on a fresh
parser. -/
theorem parser_reusable_after_end_witness :
    (initState : PState ℚ) = initState ∧
    sessionResult Calc1.actions Calc1.groups initState [(.NUM, 3)] =
      parseAll Calc1.actions Calc1.groups [(.NUM, 3)] :=
  parser_reusable_after_end Calc1.actions Calc1.groups [(.NUM, 2)] [(.NUM, 3)]
    ⟨[], [2], [], false⟩ initState [2] rfl rfl

/-- C8: the generated parser's runtime interface returns results, never
panicking in normal operation: `add_token` is a total function into a
result type whose only error is `ParseError::UnexpectedToken` (a token no
rule can accept in the current state), `end()`'s only error is
`ParseError::UnexpectedEof` (input not a complete sentence), and `end()` on
a complete sentence returns `Ok` with the start symbol's materialized
value — concretely: PAR_CLOSE as first token is rejected as
UnexpectedToken, `end()` after `"2 +"` is UnexpectedEof, and `"2 + 3"`
yields `Ok([5.0])`. -/
theorem runtime_result_contract :
    (∀ (V : Type) (acts : Actions V) (groups : PrecGroups) (s : PState V)
        (t : Token) (p : ℚ) (e : ParseError),
        addToken acts groups s t p = .error e → e = .UnexpectedToken) ∧
    (∀ (V : Type) (acts : Actions V) (s : PState V) (e : ParseError),
        pend acts s = .error e → e = .UnexpectedEof) ∧
    addToken Calc1.actions Calc1.groups initState .PAR_CLOSE 0 =
      .error .UnexpectedToken ∧
    parseAll Calc1.actions Calc1.groups [(.NUM, 2), (.PLUS, 0)] =
      .error .UnexpectedEof ∧
    parseAll Calc1.actions Calc1.groups [(.NUM, 2), (.PLUS, 0), (.NUM, 3)] = .ok [5] := by
  refine ⟨fun V acts groups s t p e h => addToken_error_eq acts groups s t p e h,
          fun V acts s e h => pend_error_eq acts s e h, rfl, ?_, ?_⟩
  · simp +decide [parseAll, sessionResult, runTokens, addToken, shiftBinary, shouldReduce,
      precOf, precOfAux, popPrec, applyOp, pend, reduceAll, initState, Calc1.actions,
      Calc1.groups, termOf]
  · simp +decide [parseAll, sessionResult, runTokens, addToken, shiftBinary, shouldReduce,
      precOf, precOfAux, popPrec, applyOp, pend, reduceAll, initState, Calc1.actions,
      Calc1.groups, termOf]
    norm_num

/-- C8 (witness): the two error-classification clauses applied at concrete
erroring inputs — PAR_CLOSE on a fresh parser, and `end()` on a fresh
parser with no input. -/
theorem runtime_result_contract_witness :
    ParseError.UnexpectedToken = .UnexpectedToken ∧
    ParseError.UnexpectedEof = .UnexpectedEof :=
  ⟨runtime_result_contract.1 ℚ Calc1.actions Calc1.groups initState .PAR_CLOSE 0
      .UnexpectedToken rfl,
   runtime_result_contract.2.1 ℚ Calc1.actions initState .UnexpectedEof rfl⟩

end LemonTree

namespace LemonTree

theorem matchBindings_ok_mem (params : List String) :
    ∀ (bs : List Binding) (m : List (String × Binding)) (p : String) (b : Binding),
      matchBindings params bs = .ok m → (p, b) ∈ m → matchBinding params b = .ok p := by
  intro bs
  induction bs with
  | nil =>
    intro m p b h hm
    have : ([] : List (String × Binding)) = m := Except.ok.inj h
    subst this
    simp at hm
  | cons b0 bs ih =>
    intro m p b h hm
    rw [matchBindings] at h
    rcases hmb : matchBinding params b0 with e | p0 <;> rw [hmb] at h
    · exact Except.noConfusion h
    · rcases hmbs : matchBindings params bs with e | rest <;> rw [hmbs] at h
      · exact Except.noConfusion h
      · have hm' : (p0, b0) :: rest = m := Except.ok.inj h
        subst hm'
        rcases List.mem_cons.mp hm with heq | hmem
        · injection heq with hp hb
          rw [hp, hb]
          exact hmb
        · exact ih rest p b hmbs hmem

theorem matchBindings_all_unknown (params : List String) :
    ∀ bs : List Binding,
      (∀ b ∈ bs, ∃ s, b = Binding.name s) →
      (∃ s, Binding.name s ∈ bs ∧ s ∉ params) →
      matchBindings params bs = .error .UnknownBinding := by
  intro bs
  induction bs with
  | nil =>
    intro _ hex
    obtain ⟨s, hmem, _⟩ := hex
    simp at hmem
  | cons b0 bs ih =>
    intro hall hex
    obtain ⟨s, hmem, hnp⟩ := hex
    obtain ⟨s0, hb0⟩ := hall b0 (List.mem_cons_self b0 bs)
    subst hb0
    rw [matchBindings]
    by_cases hs0 : s0 ∈ params
    · have hmb : matchBinding params (.name s0) = .ok s0 := by
        simp [matchBinding, hs0]
      rw [hmb]
      have hmem' : Binding.name s ∈ bs := by
        rcases List.mem_cons.mp hmem with heq | h
        · exact absurd hs0 ((Binding.name.inj heq) ▸ hnp)
        · exact h
      have hrec := ih (fun b hb => hall b (List.mem_cons_of_mem _ hb)) ⟨s, hmem', hnp⟩
      rw [hrec]
    · have hmb : matchBinding params (.name s0) = .error .UnknownBinding := by
        simp [matchBinding, hs0]
      rw [hmb]

/-- C2 (counterexample): the claim states that on the `lem_fn` FunctionCall
path every binding is matched to a parameter by being named identically,
and that a binding whose name matches no parameter fails with
`UnknownBinding`.  This is refuted by `expr_8` in `tests/calc_1.rs:15`
(mirrored by `expr_from_par` in `tests/tree_1.rs:13`): the rule
`"PAR_OPEN Expr(0) PAR_CLOSE"` uses the positional binding `0` with the
single parameter named `a`, no parameter is named `0`, and the rule
compiles and runs — positional numeric bindings resolve by position
(spec §4.1), not by name. -/
theorem lem_fn_positional_binding_accepted :
    resolveFunctionCall ["a"] [Binding.pos 0] = .ok [("a", Binding.pos 0)] ∧
    resolveFunctionCall ["a"] [Binding.pos 0] ≠ .error .UnknownBinding := by
  have hok : resolveFunctionCall ["a"] [Binding.pos 0] = .ok [("a", Binding.pos 0)] := by
    simp [resolveFunctionCall, matchBindings, matchBinding]
  exact ⟨hok, fun h => Except.noConfusion (hok ▸ h)⟩

/-- C2 (amended): for a rule declared via the `lem_fn` FunctionCall path,
a named binding is matched to the function parameter with the identical
name, and a numeric binding is matched to the parameter in that position;
a parameter-count mismatch fails with `ArityMismatch`, and (when the counts
match and all bindings are named) a binding whose name matches no parameter
fails with `UnknownBinding`. -/
theorem lem_fn_binding_matching (params : List String) (bnds : List Binding) :
    (∀ m, resolveFunctionCall params bnds = .ok m →
      bnds.length = params.length ∧
      (∀ p s, (p, Binding.name s) ∈ m → p = s ∧ s ∈ params) ∧
      (∀ p i, (p, Binding.pos i) ∈ m → params.get? i = some p)) ∧
    (bnds.length ≠ params.length →
      resolveFunctionCall params bnds = .error .ArityMismatch) ∧
    (bnds.length = params.length →
      (∀ b ∈ bnds, ∃ s, b = Binding.name s) →
      (∃ s, Binding.name s ∈ bnds ∧ s ∉ params) →
      resolveFunctionCall params bnds = .error .UnknownBinding) := by
  refine ⟨?_, ?_, ?_⟩
  · intro m hok
    have hlen : bnds.length = params.length := by
      unfold resolveFunctionCall at hok
      split_ifs at hok with h
      exact h
    have hmbs : matchBindings params bnds = .ok m := by
      unfold resolveFunctionCall at hok
      rw [if_pos hlen] at hok
      exact hok
    refine ⟨hlen, ?_, ?_⟩
    · intro p s hm
      have hmb := matchBindings_ok_mem params bnds m p (.name s) hmbs hm
      simp only [matchBinding] at hmb
      split_ifs at hmb with hs
      exact ⟨(Except.ok.inj hmb).symm, hs⟩
    · intro p i hm
      have hmb := matchBindings_ok_mem params bnds m p (.pos i) hmbs hm
      simp only [matchBinding] at hmb
      rcases hg : params.get? i with _ | q <;> rw [hg] at hmb
      · exact Except.noConfusion hmb
      · rw [Except.ok.inj hmb]
  · intro hne
    unfold resolveFunctionCall
    rw [if_neg hne]
  · intro hlen hall hex
    unfold resolveFunctionCall
    rw [if_pos hlen]
    exact matchBindings_all_unknown params bnds hall hex

/-- C2 (witness): name matching ignores parameter order (`"b"` binds to
parameter `b` even listed first), a parameter-count mismatch is
`ArityMismatch`, and an unknown binding name is `UnknownBinding`. -/
theorem lem_fn_binding_matching_witness :
    ([Binding.name "b", Binding.name "a"].length = ["a", "b"].length ∧
      (∀ p s, (p, Binding.name s) ∈ [("b", Binding.name "b"), ("a", Binding.name "a")] →
        p = s ∧ s ∈ ["a", "b"]) ∧
      (∀ p i, (p, Binding.pos i) ∈ [("b", Binding.name "b"), ("a", Binding.name "a")] →
        ["a", "b"].get? i = some p)) ∧
    resolveFunctionCall ["a"] [] = .error .ArityMismatch ∧
    resolveFunctionCall ["a", "b"] [Binding.name "a", Binding.name "x"] =
      .error .UnknownBinding := by
  refine ⟨(lem_fn_binding_matching ["a", "b"] [Binding.name "b", Binding.name "a"]).1
      [("b", Binding.name "b"), ("a", Binding.name "a")]
      (by simp [resolveFunctionCall, matchBindings, matchBinding]),
    (lem_fn_binding_matching ["a"] []).2.1 (by simp),
    (lem_fn_binding_matching ["a", "b"] [Binding.name "a", Binding.name "x"]).2.2
      (by simp) ?_ ⟨"x", by simp, by simp⟩⟩
  intro b hb
  rcases List.mem_cons.mp hb with rfl | hb2
  · exact ⟨"a", rfl⟩
  · rcases List.mem_cons.mp hb2 with rfl | hb3
    · exact ⟨"x", rfl⟩
    · simp at hb3

end LemonTree

namespace LemonTree

/-- C4: for every StructLiteral action, each field of the target struct not
named by any binding in the rule text is assigned its type's default value
(`Default::default()`, per the lib.rs module doc), the defaulted-field set
is exactly the set of unbound fields, and the defaulting is idempotent:
re-resolving the same Rule twice yields the same defaulted-field set. -/
theorem struct_literal_default_fields (fields : List (String × String))
    (bnds : List String) :
    (∀ f ty, (f, ty) ∈ fields → f ∉ bnds →
      (f, FieldInit.defaultValue ty) ∈ resolveStructLiteral fields bnds ∧
      f ∈ defaultedFields fields bnds) ∧
    (∀ f, f ∈ defaultedFields fields bnds → f ∉ bnds ∧ ∃ ty, (f, ty) ∈ fields) ∧
    (∀ d1 d2, d1 = defaultedFields fields bnds → d2 = defaultedFields fields bnds →
      d1 = d2) := by
  refine ⟨?_, ?_, ?_⟩
  · intro f ty hmem hnb
    have hres : (f, FieldInit.defaultValue ty) ∈ resolveStructLiteral fields bnds := by
      unfold resolveStructLiteral
      refine List.mem_map.mpr ⟨(f, ty), hmem, ?_⟩
      simp [if_neg hnb]
    refine ⟨hres, ?_⟩
    unfold defaultedFields
    exact List.mem_filterMap.mpr ⟨(f, FieldInit.defaultValue ty), hres, rfl⟩
  · intro f hf
    unfold defaultedFields at hf
    obtain ⟨⟨g, init⟩, hmem, hmatch⟩ := List.mem_filterMap.mp hf
    cases init with
    | fromBinding b => exact Option.noConfusion hmatch
    | defaultValue ty =>
      have hg : g = f := Option.some.inj hmatch
      subst hg
      unfold resolveStructLiteral at hmem
      obtain ⟨⟨f0, ty0⟩, hf0, heq⟩ := List.mem_map.mp hmem
      have hf0g : f0 = g := congrArg Prod.fst heq
      subst hf0g
      by_cases hb : f0 ∈ bnds
      · have h2 := congrArg Prod.snd heq
        simp [if_pos hb] at h2
      · exact ⟨hb, ty0, hf0⟩
  · intro d1 d2 h1 h2
    rw [h1, h2]

/-- C4 (witness): the start rule of `tests/tree_1.rs` (`"Exprs(exprs)
[SEMICOLON]"` on `struct Program { exprs: Vec<Expr>, flag: bool }`) binds
only `exprs`, so the unbound field `flag` receives its type's default. -/
theorem struct_literal_default_fields_witness :
    ("flag", FieldInit.defaultValue "bool") ∈
      resolveStructLiteral [("exprs", "Vec<Expr>"), ("flag", "bool")] ["exprs"] ∧
    "flag" ∈ defaultedFields [("exprs", "Vec<Expr>"), ("flag", "bool")] ["exprs"] :=
  (struct_literal_default_fields [("exprs", "Vec<Expr>"), ("flag", "bool")]
    ["exprs"]).1 "flag" "bool" (by simp) (by simp)

/-- C5: for every rule action, when a bound value's declared type differs
from the target field/parameter/variant-argument type, the resolver inserts
the implicit conversion call (`value.into()`) provided a conversion
contract is registered for the (source, target) pair, and fails with
`NoConversion` when none is; the lookup happens in the resolver, i.e. at
build time, never at runtime. -/
theorem implicit_conversion_on_type_mismatch (contracts : List (String × String))
    (b srcTy tgtTy : String) (hne : srcTy ≠ tgtTy) :
    ((srcTy, tgtTy) ∈ contracts →
      resolveBoundValue contracts b srcTy tgtTy = .ok (.converted b)) ∧
    ((srcTy, tgtTy) ∉ contracts →
      resolveBoundValue contracts b srcTy tgtTy = .error .NoConversion) := by
  constructor <;> intro h <;> unfold resolveBoundValue <;> rw [if_neg hne]
  · rw [if_pos h]
  · rw [if_neg h]

/-- C5 (witness): the `Expr::Plus(Box<Expr>, Box<Expr>)` variant of
`tests/tree_1.rs` — a bound `Expr` value fills a `Box<Expr>` argument
through the registered `Box<T>: From<T>` conversion. -/
theorem implicit_conversion_on_type_mismatch_witness :
    resolveBoundValue [("Expr", "Box<Expr>")] "0" "Expr" "Box<Expr>" =
      .ok (.converted "0") :=
  (implicit_conversion_on_type_mismatch [("Expr", "Box<Expr>")] "0" "Expr" "Box<Expr>"
    (by simp)).1 (by simp)

end LemonTree
